import Mathlib

/-!
Verification of the SNR estimation scripts of the `biss2016` repository
(`vcs_code/03_snr_median.py`, `vcs_code/05_snr_dietrich2007.py`,
`vcs_code/99_snr_original.py`).

Embedding choices, traceable to the Python sources:

* Images and masks are flattened one-dimensional lists of exact rationals
  (`List ℚ`); the Python code operates on numpy arrays of matching shape and
  only uses shape-agnostic reductions (boolean selection, `median`, `sum`,
  `std`), so a flat list with positionwise mask selection is a faithful model.
* `region img mask` models the numpy boolean indexing `img[mask > 0]`.
* `medianQ` models `np.median`: sort ascending, middle element for odd
  length, mean of the two middle elements for even length.
* All statistics performed by the scripts before the final square root are
  rational, so they are modelled computably in `ℚ`; only the final value
  (which involves `sqrt` and `π`) lives in `ℝ` (exact real arithmetic in
  place of IEEE-754 doubles).
* None of the three scripts contains a `raise`, `assert` or any other error
  handling: on degenerate inputs (empty selection, zero dispersion, fewer
  than two samples for `ddof=1`) numpy produces NaN or ±infinity with a
  runtime warning and the function returns that non-finite value.  The
  result type `SnrOut` therefore has a `nonFinite` constructor for the
  returned non-finite floats and no error constructor at all.
-/

/-- Result of one of the Python `snr` functions: a finite float, or a
non-finite float (NaN or ±infinity, from a degenerate reduction or a
division by zero) that is returned to the caller — the scripts raise no
exceptions. -/
inductive SnrOut where
  | finite (x : ℝ)
  | nonFinite

/-- Boolean-index selection `img[mask > 0]`: the image values at the
positions where the mask value is strictly positive.  Image and mask are
congruent in shape per the input contract. -/
def region : List ℚ → List ℚ → List ℚ
  | _, [] => []
  | [], _ :: _ => []
  | x :: xs, m :: ms => if 0 < m then x :: region xs ms else region xs ms

/-- Insert a value into an already ascending list, keeping it ascending. -/
def insertAsc (x : ℚ) : List ℚ → List ℚ
  | [] => [x]
  | y :: ys => if x ≤ y then x :: y :: ys else y :: insertAsc x ys

/-- Ascending sort, as performed internally by `np.median`. -/
def sortAsc : List ℚ → List ℚ
  | [] => []
  | x :: xs => insertAsc x (sortAsc xs)

/-- Model of `np.median`: sort ascending; for odd length take the middle
element, for even length the average of the two middle elements. -/
def medianQ (xs : List ℚ) : ℚ :=
  let s := sortAsc xs
  if xs.length % 2 = 1 then s.getD (xs.length / 2) 0
  else (s.getD (xs.length / 2 - 1) 0 + s.getD (xs.length / 2) 0) / 2

/-- Sum of squared deviations from a centering value `c`:
`np.sum((xs - c) ** 2)`. -/
def ssdQ (xs : List ℚ) (c : ℚ) : ℚ := (xs.map (fun x => (x - c) ^ 2)).sum

/-- Arithmetic mean `np.mean`, used inside `np.std`. -/
def meanQ (xs : List ℚ) : ℚ := xs.sum / (xs.length : ℚ)

/-- Specification-side definition: the standard deviation computed by
`ndarray.std(ddof=d)` — square root of the mean-centered sum of squared
deviations over `length - ddof`. -/
noncomputable def sampleStd (xs : List ℚ) (ddof : ℚ) : ℝ :=
  Real.sqrt ((ssdQ xs (meanQ xs) : ℝ) / ((xs.length : ℝ) - (ddof : ℝ)))

/-- Specification-side definition: the Rayleigh correction factor
`sqrt(2 / (4 - pi))` of Dietrich 2007, eq. A.12. -/
noncomputable def rayleighFactor : ℝ := Real.sqrt (2 / (4 - Real.pi))

/-- Specification-side definition: the Case A noise estimate of the spec,
`sqrt( sum((region - median(region))^2) / (N - 1) )` with `N` the number of
selected samples. -/
noncomputable def besselMedianStd (xs : List ℚ) : ℝ :=
  Real.sqrt ((ssdQ xs (medianQ xs) : ℝ) / ((xs.length : ℝ) - 1))

/-- Embedding of `snr` from `vcs_code/05_snr_dietrich2007.py`.

With no noise mask (`nmask = None`), the script sets `nmask = smask`,
recomputes `bg_mean = np.median(img[nmask > 0])` and forms
`bg_std = sqrt(sum((img[nmask > 0] - bg_mean)**2) / (np.sum(nmask) - 1))`;
note the normalizer is the SUM of the mask values minus one.  With an
explicit noise mask it forms
`bg_std = sqrt(2/(4 - pi)) * img[nmask > 0].std(ddof=1)`.
It returns `float(fg_mean / bg_std)`.

Non-finite float propagation, mirrored case by case: an empty foreground
selection makes `np.median` return NaN, hence a NaN result; with
`d = np.sum(nmask) - 1`, `s = sum of squared deviations`: `d = 0, s = 0`
gives `0/0 = NaN`; `d = 0, s > 0` gives `s/0 = +inf`, `sqrt(inf) = inf`
and `fg_mean/inf = 0.0`, a finite zero; `d < 0` gives a negative (or
negative-zero) variance whose square root is NaN (or ±0 with a division
by ±0 following), always non-finite; `d > 0, s = 0` gives `bg_std = 0`
and `fg_mean/0` is ±inf or NaN.  In the explicit-mask case `std(ddof=1)`
is NaN when fewer than 2 samples are selected, and a zero standard
deviation again gives a non-finite quotient. -/
noncomputable def snr05 (img smask : List ℚ) (nmask : Option (List ℚ)) : SnrOut :=
  let fgRegion := region img smask
  if fgRegion = [] then .nonFinite
  else
    let fg_mean := medianQ fgRegion
    match nmask with
    | none =>
      let bg_mean := medianQ fgRegion
      let s := ssdQ fgRegion bg_mean
      let d := smask.sum - 1
      if d = 0 then (if s = 0 then .nonFinite else .finite 0)
      else if d < 0 then .nonFinite
      else if s = 0 then .nonFinite
      else .finite ((fg_mean : ℝ) / Real.sqrt ((s : ℝ) / (d : ℝ)))
    | some nm =>
      let bgRegion := region img nm
      if bgRegion.length < 2 then .nonFinite
      else
        let v := ssdQ bgRegion (meanQ bgRegion) / ((bgRegion.length : ℚ) - 1)
        if v = 0 then .nonFinite
        else .finite ((fg_mean : ℝ) /
          (Real.sqrt (2 / (4 - Real.pi)) * Real.sqrt ((v : ℚ) : ℝ)))

/-- Embedding of `snr` from `vcs_code/03_snr_median.py`: median of the
foreground selection divided by `img[nmask > 0].std()` (population standard
deviation, `ddof = 0`), the noise mask defaulting to the foreground mask.
An empty foreground selection gives a NaN median; an empty noise selection
gives a NaN standard deviation; a zero standard deviation gives a
non-finite quotient. -/
noncomputable def snr03 (img smask : List ℚ) (nmask : Option (List ℚ)) : SnrOut :=
  let fgRegion := region img smask
  if fgRegion = [] then .nonFinite
  else
    let fg_mean := medianQ fgRegion
    let nRegion := region img (nmask.getD smask)
    if nRegion = [] then .nonFinite
    else
      let v := ssdQ nRegion (meanQ nRegion) / (nRegion.length : ℚ)
      if v = 0 then .nonFinite
      else .finite ((fg_mean : ℝ) / Real.sqrt ((v : ℚ) : ℝ))

/-- Modelled from the spec: `_prepare_mask` is called by
`vcs_code/99_snr_original.py` but its definition is not among the sources.
Section 4.1 of the specification describes it as producing an indicator
mask for the requested label, eroded when requested; `snr99` below is
therefore parametrized by an arbitrary mask-preparation function `pm`,
and `prepareMaskId` is the instance in which the mask is returned
unchanged (already an indicator, no erosion applied). -/
def prepareMaskId : List ℚ → ℚ → Bool → List ℚ := fun m _ _ => m

/-- Embedding of `snr` from `vcs_code/99_snr_original.py`, parametrized by
the mask-preparation function `pm` (the script's `_prepare_mask`, absent
from the sources).  After preparing the masks it computes
`fg_mean = np.median(img[fgmask > 0])`; with no background mask it sets
`bgmask = fgmask`, reuses `bg_mean = fg_mean` as the centering value and
forms `bg_std = sqrt(sum((img[bgmask > 0] - bg_mean)**2) / (np.sum(bgmask) - 1))`;
with a background mask it applies the Rayleigh-corrected
`sqrt(2/(4 - pi)) * img[bgmask > 0].std(ddof=1)`.  Non-finite float
propagation is as in `snr05`. -/
noncomputable def snr99 (pm : List ℚ → ℚ → Bool → List ℚ)
    (img smask : List ℚ) (nmask : Option (List ℚ))
    (erode : Bool) (fglabel : ℚ) : SnrOut :=
  let fgmask := pm smask fglabel erode
  let fgRegion := region img fgmask
  if fgRegion = [] then .nonFinite
  else
    let fg_mean := medianQ fgRegion
    match nmask with
    | none =>
      let s := ssdQ fgRegion fg_mean
      let d := fgmask.sum - 1
      if d = 0 then (if s = 0 then .nonFinite else .finite 0)
      else if d < 0 then .nonFinite
      else if s = 0 then .nonFinite
      else .finite ((fg_mean : ℝ) / Real.sqrt ((s : ℝ) / (d : ℝ)))
    | some nmRaw =>
      let bgmask := pm nmRaw 1 erode
      let bgRegion := region img bgmask
      if bgRegion.length < 2 then .nonFinite
      else
        let v := ssdQ bgRegion (meanQ bgRegion) / ((bgRegion.length : ℚ) - 1)
        if v = 0 then .nonFinite
        else .finite ((fg_mean : ℝ) /
          (Real.sqrt (2 / (4 - Real.pi)) * Real.sqrt ((v : ℚ) : ℝ)))

example : region [90, 100, 110, 0, 5, 10] [1, 1, 1, 0, 0, 0] = [90, 100, 110] := by
  norm_num [region]

example : medianQ [110, 90, 100] = 100 := by
  norm_num [medianQ, sortAsc, insertAsc]

example : medianQ [10, 20, 90] = 20 ∧ meanQ [10, 20, 90] = 40 := by
  norm_num [medianQ, sortAsc, insertAsc, meanQ]

example : ssdQ [90, 100, 110] 100 = 200 := by
  norm_num [ssdQ]

example : ssdQ [0, 5, 10] (meanQ [0, 5, 10]) = 50 := by
  norm_num [ssdQ, meanQ]

/-- Unfolding lemma for the explicit-mask branch of `snr05`: with a
non-empty foreground selection, at least two background samples and
non-zero background dispersion, the returned value is the foreground
median over the Rayleigh-corrected square root of the Bessel-normalized
background variance. -/
theorem snr05_caseB_eq (img smask nm : List ℚ)
    (h1 : region img smask ≠ [])
    (h2 : 2 ≤ (region img nm).length)
    (h3 : ssdQ (region img nm) (meanQ (region img nm)) ≠ 0) :
    snr05 img smask (some nm) = .finite ((medianQ (region img smask) : ℝ) /
      (Real.sqrt (2 / (4 - Real.pi)) * Real.sqrt
        (((ssdQ (region img nm) (meanQ (region img nm)) /
           ((region img nm).length - 1) : ℚ) : ℝ)))) := by
  have hlen : ¬ (region img nm).length < 2 := by omega
  have hd : ((region img nm).length : ℚ) - 1 ≠ 0 := by
    have : (2 : ℚ) ≤ ((region img nm).length : ℚ) := by exact_mod_cast h2
    linarith
  have hv : ssdQ (region img nm) (meanQ (region img nm)) /
      (((region img nm).length : ℚ) - 1) ≠ 0 := div_ne_zero h3 hd
  simp only [snr05, if_neg h1, if_neg hlen, if_neg hv]

/-- Unfolding lemma for the no-mask branch of `snr05`: with a non-empty
foreground selection, a mask summing to more than one and non-zero
median-centered dispersion, the returned value is the median over the
square root of the median-centered sum of squares normalized by the mask
sum minus one. -/
theorem snr05_caseA_eq (img smask : List ℚ)
    (h1 : region img smask ≠ [])
    (h2 : 0 < smask.sum - 1)
    (h3 : ssdQ (region img smask) (medianQ (region img smask)) ≠ 0) :
    snr05 img smask none = .finite ((medianQ (region img smask) : ℝ) /
      Real.sqrt ((ssdQ (region img smask) (medianQ (region img smask)) : ℝ) /
        ((smask.sum - 1 : ℚ) : ℝ))) := by
  have hd0 : smask.sum - 1 ≠ 0 := ne_of_gt h2
  have hdneg : ¬ smask.sum - 1 < 0 := not_lt.mpr (le_of_lt h2)
  simp only [snr05, if_neg h1, if_neg hd0, if_neg hdneg, if_neg h3]

/-- Unfolding lemma for `snr03`: with non-empty selections and non-zero
mean-centered dispersion of the noise region, the returned value is the
foreground median over the population standard deviation of the noise
region. -/
theorem snr03_eq (img smask : List ℚ) (nmask : Option (List ℚ))
    (h1 : region img smask ≠ [])
    (h2 : region img (nmask.getD smask) ≠ [])
    (h3 : ssdQ (region img (nmask.getD smask))
      (meanQ (region img (nmask.getD smask))) ≠ 0) :
    snr03 img smask nmask = .finite ((medianQ (region img smask) : ℝ) /
      Real.sqrt (((ssdQ (region img (nmask.getD smask))
          (meanQ (region img (nmask.getD smask))) /
        ((region img (nmask.getD smask)).length : ℚ) : ℚ) : ℝ))) := by
  have hn : ((region img (nmask.getD smask)).length : ℚ) ≠ 0 := by
    have : region img (nmask.getD smask) ≠ [] := h2
    simpa [List.length_eq_zero] using this
  have hv : ssdQ (region img (nmask.getD smask))
      (meanQ (region img (nmask.getD smask))) /
      ((region img (nmask.getD smask)).length : ℚ) ≠ 0 := div_ne_zero h3 hn
  simp only [snr03, if_neg h1, if_neg h2, if_neg hv]

/-- Unfolding lemma for the no-mask branch of `snr99` with the identity
mask preparation: same shape as the Case A branch of `snr05` except that
the centering value is the (equal) foreground median reused directly. -/
theorem snr99_caseA_eq (img smask : List ℚ) (erode : Bool) (fglabel : ℚ)
    (h1 : region img smask ≠ [])
    (h2 : 0 < smask.sum - 1)
    (h3 : ssdQ (region img smask) (medianQ (region img smask)) ≠ 0) :
    snr99 prepareMaskId img smask none erode fglabel =
      .finite ((medianQ (region img smask) : ℝ) /
        Real.sqrt ((ssdQ (region img smask) (medianQ (region img smask)) : ℝ) /
          ((smask.sum - 1 : ℚ) : ℝ))) := by
  have hd0 : smask.sum - 1 ≠ 0 := ne_of_gt h2
  have hdneg : ¬ smask.sum - 1 < 0 := not_lt.mpr (le_of_lt h2)
  simp only [snr99, prepareMaskId, if_neg h1, if_neg hd0, if_neg hdneg, if_neg h3]

/-- For a 0/1-valued mask congruent in shape to the image, the sum of the
mask values equals the number of selected samples. -/
theorem sum_eq_region_length_of_binary : ∀ (img mask : List ℚ),
    img.length = mask.length → (∀ x ∈ mask, x = 0 ∨ x = 1) →
    mask.sum = ((region img mask).length : ℚ)
  | _, [], _, _ => by simp [region]
  | [], _ :: _, h, _ => by simp at h
  | x :: xs, m :: ms, h, hb => by
    have hlen : xs.length = ms.length := by simpa using h
    have hbs : ∀ y ∈ ms, y = 0 ∨ y = 1 := fun y hy => hb y (List.mem_cons_of_mem _ hy)
    have ih := sum_eq_region_length_of_binary xs ms hlen hbs
    rcases hb m (List.mem_cons_self m ms) with hm | hm
    · subst hm
      simp [region, ih]
    · subst hm
      simp [region, ih]
      ring

/-- Shared unfolding lemma: the explicit-mask branch of `snr05` in the
vocabulary of the specification, the Rayleigh factor times the `ddof=1`
sample standard deviation of the background selection. -/
theorem snr05_rayleigh_spec (img smask nm : List ℚ)
    (h1 : region img smask ≠ [])
    (h2 : 2 ≤ (region img nm).length)
    (h3 : ssdQ (region img nm) (meanQ (region img nm)) ≠ 0) :
    snr05 img smask (some nm) = .finite ((medianQ (region img smask) : ℝ) /
      (rayleighFactor * sampleStd (region img nm) 1)) := by
  rw [snr05_caseB_eq img smask nm h1 h2 h3]
  unfold rayleighFactor sampleStd
  simp only [SnrOut.finite.injEq]
  push_cast
  norm_num

/-- C1: with an explicit background mask selecting at least 2 samples of
non-zero dispersion (Case B), `snr` of `05_snr_dietrich2007.py` returns the
median of the foreground selection divided by `sqrt(2/(4-pi))` times the
`ddof=1` sample standard deviation of the background selection. -/
theorem snr05_caseB_rayleigh_formula (img smask nm : List ℚ)
    (h1 : region img smask ≠ [])
    (h2 : 2 ≤ (region img nm).length)
    (h3 : ssdQ (region img nm) (meanQ (region img nm)) ≠ 0) :
    snr05 img smask (some nm) = .finite ((medianQ (region img smask) : ℝ) /
      (rayleighFactor * sampleStd (region img nm) 1)) :=
  snr05_rayleigh_spec img smask nm h1 h2 h3

/-- Witness for C1, realizing Scenario 2 of the spec: foreground values
`[90,100,110]` (median 100) and background values `[0,5,10]` with sample
standard deviation 5 give `SNR = 100 / (sqrt(2/(4-pi)) * 5)`. -/
theorem snr05_caseB_rayleigh_formula_witness :
    snr05 [90, 100, 110, 0, 5, 10] [1, 1, 1, 0, 0, 0] (some [0, 0, 0, 1, 1, 1]) =
      .finite ((100 : ℝ) / (Real.sqrt (2 / (4 - Real.pi)) * 5)) := by
  have h := snr05_caseB_rayleigh_formula [90, 100, 110, 0, 5, 10] [1, 1, 1, 0, 0, 0]
    [0, 0, 0, 1, 1, 1]
    (by simp [region]) (by norm_num [region]) (by norm_num [region, ssdQ, meanQ])
  rw [h]
  have hm : medianQ (region [90, 100, 110, 0, 5, 10] [1, 1, 1, 0, 0, 0]) = 100 := by
    norm_num [region, medianQ, sortAsc, insertAsc]
  have hs : sampleStd (region [90, 100, 110, 0, 5, 10] [0, 0, 0, 1, 1, 1]) 1 = 5 := by
    have hr : region [90, 100, 110, 0, 5, 10] [(0 : ℚ), 0, 0, 1, 1, 1] = [0, 5, 10] := by
      norm_num [region]
    rw [sampleStd, hr]
    norm_num [ssdQ, meanQ]
    rw [show (25 : ℝ) = 5 ^ 2 by norm_num, Real.sqrt_sq] ; norm_num
  rw [hm, hs, rayleighFactor]
  norm_num

/-- Counterexample to C2: the Case A normalizer of `05_snr_dietrich2007.py`
is `np.sum(nmask) - 1`, the sum of the mask values minus one, not the number
of selected samples minus one.  With image `[90,100,110]` and the positive
mask `[2,2,2]` (three selected samples, claimed `SNR = 10`) the script
divides the sum of squared deviations by `6 - 1 = 5` and returns
`100/sqrt(40)`, which is not `10`. -/
theorem snr05_caseA_mask_sum_counterexample :
    snr05 [90, 100, 110] [2, 2, 2] none ≠ .finite 10 := by
  have h := snr05_caseA_eq [90, 100, 110] [2, 2, 2]
    (by simp [region]) (by norm_num) (by norm_num [region, ssdQ, medianQ, sortAsc, insertAsc])
  rw [h]
  have hm : medianQ (region [90, 100, 110] [2, 2, 2]) = 100 := by
    norm_num [region, medianQ, sortAsc, insertAsc]
  have hssd : ssdQ (region [90, 100, 110] [2, 2, 2]) 100 = 200 := by
    norm_num [region, ssdQ]
  rw [hm, hssd]
  simp only [ne_eq, SnrOut.finite.injEq]
  push_cast
  norm_num
  intro h'
  have hne : Real.sqrt 40 ≠ 0 := by
    rw [Real.sqrt_ne_zero']
    norm_num
  rw [div_eq_iff hne] at h'
  have h10 : Real.sqrt 40 = 10 := by linarith
  have h2 := Real.sq_sqrt (by norm_num : (0 : ℝ) ≤ 40)
  rw [h10] at h2
  norm_num at h2

/-- C2 (amended): in the no-background-mask path of
`05_snr_dietrich2007.py`, for a 0/1-valued (binary or boolean) mask — for
which the mask sum equals the number `N` of selected samples — the result
is `median(region) / sqrt(sum((region - median(region))^2) / (N - 1))`. -/
theorem snr05_caseA_bessel_binary (img smask : List ℚ)
    (hlen : img.length = smask.length)
    (hbin : ∀ x ∈ smask, x = 0 ∨ x = 1)
    (h2 : 2 ≤ (region img smask).length)
    (h3 : ssdQ (region img smask) (medianQ (region img smask)) ≠ 0) :
    snr05 img smask none = .finite ((medianQ (region img smask) : ℝ) /
      besselMedianStd (region img smask)) := by
  have hsum := sum_eq_region_length_of_binary img smask hlen hbin
  have h1 : region img smask ≠ [] := by
    intro h
    rw [h] at h2
    simp at h2
  have hpos : 0 < smask.sum - 1 := by
    rw [hsum]
    have : (2 : ℚ) ≤ ((region img smask).length : ℚ) := by exact_mod_cast h2
    linarith
  rw [snr05_caseA_eq img smask h1 hpos h3]
  unfold besselMedianStd
  simp only [SnrOut.finite.injEq]
  rw [hsum]
  push_cast
  norm_num

/-- Witness for C2 (amended), realizing Scenario 3 of the spec: region
values `[90,100,110]` under a binary mask give `SNR = 100/10 = 10`. -/
theorem snr05_caseA_bessel_binary_witness :
    snr05 [90, 100, 110] [1, 1, 1] none = .finite 10 := by
  have h := snr05_caseA_bessel_binary [90, 100, 110] [1, 1, 1]
    (by norm_num) (by decide) (by norm_num [region])
    (by norm_num [region, ssdQ, medianQ, sortAsc, insertAsc])
  rw [h]
  have hm : medianQ (region [90, 100, 110] [1, 1, 1]) = 100 := by
    norm_num [region, medianQ, sortAsc, insertAsc]
  have hb : besselMedianStd (region [90, 100, 110] [1, 1, 1]) = 10 := by
    have hr : region [90, 100, 110] [(1 : ℚ), 1, 1] = [90, 100, 110] := by
      norm_num [region]
    rw [besselMedianStd, hr]
    have hssd : ssdQ [90, 100, 110] (medianQ [90, 100, 110]) = 200 := by
      norm_num [ssdQ, medianQ, sortAsc, insertAsc]
    rw [hssd]
    norm_num
    rw [show (100 : ℝ) = 10 ^ 2 by norm_num, Real.sqrt_sq] ; norm_num
  rw [hm, hb]
  norm_num

/-- C9: the historical variant `03_snr_median.py` always computes the
median of the foreground selection divided by the plain population
standard deviation (`ddof = 0`) of the noise selection (the foreground
selection when no noise mask is given), with neither Bessel correction
nor Rayleigh correction. -/
theorem snr03_population_std_formula (img smask : List ℚ) (nmask : Option (List ℚ))
    (h1 : region img smask ≠ [])
    (h2 : region img (nmask.getD smask) ≠ [])
    (h3 : ssdQ (region img (nmask.getD smask))
      (meanQ (region img (nmask.getD smask))) ≠ 0) :
    snr03 img smask nmask = .finite ((medianQ (region img smask) : ℝ) /
      sampleStd (region img (nmask.getD smask)) 0) := by
  rw [snr03_eq img smask nmask h1 h2 h3]
  unfold sampleStd
  simp only [SnrOut.finite.injEq]
  push_cast
  norm_num

/-- Witness for C9: foreground `[90,100,110]` doubling as the noise region
gives `100 / sqrt(200/3)` — the population (`ddof = 0`) standard deviation,
with no Bessel normalizer `N - 1` and no Rayleigh factor. -/
theorem snr03_population_std_formula_witness :
    snr03 [90, 100, 110] [1, 1, 1] none = .finite ((100 : ℝ) / Real.sqrt (200 / 3)) := by
  have h := snr03_population_std_formula [90, 100, 110] [1, 1, 1] none
    (by simp [region]) (by simp [region]) (by norm_num [region, ssdQ, meanQ])
  rw [h]
  simp only [Option.getD_none]
  have hm : medianQ (region [90, 100, 110] [1, 1, 1]) = 100 := by
    norm_num [region, medianQ, sortAsc, insertAsc]
  have hs : sampleStd (region [90, 100, 110] [1, 1, 1]) 0 = Real.sqrt (200 / 3) := by
    have hr : region [90, 100, 110] [(1 : ℚ), 1, 1] = [90, 100, 110] := by
      norm_num [region]
    rw [sampleStd, hr]
    have hssd : ssdQ [90, 100, 110] (meanQ [90, 100, 110]) = 200 := by
      norm_num [ssdQ, meanQ]
    rw [hssd]
    norm_num
  rw [hm, hs]
  norm_num

/-- C10: with the mask preparation returning the mask unchanged, the
no-background-mask path of `99_snr_original.py` (which reuses the
foreground median as centering value) agrees with the no-background-mask
path of `05_snr_dietrich2007.py` (which recomputes the median of the noise
selection) on every image and binary foreground mask, because the noise
mask is the foreground mask and the two centering medians coincide. -/
theorem snr99_matches_snr05_caseA (img smask : List ℚ) (erode : Bool) (fglabel : ℚ)
    (_hbin : ∀ x ∈ smask, x = 0 ∨ x = 1) :
    snr99 prepareMaskId img smask none erode fglabel = snr05 img smask none := by
  rfl

/-- Witness for C10 at a concrete binary mask. -/
theorem snr99_matches_snr05_caseA_witness :
    snr99 prepareMaskId [90, 100, 110] [1, 1, 1] none true 1 =
      snr05 [90, 100, 110] [1, 1, 1] none := by
  exact snr99_matches_snr05_caseA [90, 100, 110] [1, 1, 1] true 1 (by decide)

/-- Counterexample to C6: on the constant image `[5,5,5]` with the full
foreground mask and no background mask the noise standard deviation is
exactly zero, and `snr` of `05_snr_dietrich2007.py` silently returns the
non-finite float `100/0 = inf` — no `DivisionByZeroError` is raised (the
script contains no error handling at all). -/
theorem snr05_zero_std_counterexample :
    snr05 [5, 5, 5] [1, 1, 1] none = .nonFinite := by
  norm_num [snr05, region, ssdQ, medianQ, sortAsc, insertAsc]

/-- C6 (amended): when the computed noise standard deviation is exactly
zero (a constant-valued region), `snr` of `05_snr_dietrich2007.py` does
not raise any error; the division by zero produces a non-finite float
(infinity or NaN) which is silently returned — in both the
no-background-mask path and the explicit-background-mask path. -/
theorem snr05_zero_std_nonfinite (img smask nm : List ℚ) :
    (ssdQ (region img smask) (medianQ (region img smask)) = 0 →
      snr05 img smask none = .nonFinite)
  ∧ (ssdQ (region img nm) (meanQ (region img nm)) = 0 →
      snr05 img smask (some nm) = .nonFinite) := by
  constructor
  · intro hs
    simp only [snr05]
    split_ifs <;> simp_all
  · intro hs
    simp only [snr05]
    split_ifs <;> simp_all [zero_div]

/-- Witness for C6 (amended): a constant region in both paths. -/
theorem snr05_zero_std_nonfinite_witness :
    snr05 [3, 3, 3, 9] [1, 1, 1, 0] none = .nonFinite
  ∧ snr05 [3, 3, 3, 9] [1, 1, 1, 0] (some [1, 1, 1, 0]) = .nonFinite := by
  refine ⟨(snr05_zero_std_nonfinite [3, 3, 3, 9] [1, 1, 1, 0] [1, 1, 1, 0]).1 ?_,
    (snr05_zero_std_nonfinite [3, 3, 3, 9] [1, 1, 1, 0] [1, 1, 1, 0]).2 ?_⟩
  · norm_num [region, ssdQ, medianQ, sortAsc, insertAsc]
  · norm_num [region, ssdQ, meanQ]

/-- Counterexample to C7: a background mask selecting exactly one sample
does not raise `InsufficientSamplesError`; `std(ddof=1)` of a single
sample is the NaN `0/0` and `snr` of `05_snr_dietrich2007.py` silently
returns a non-finite value. -/
theorem snr05_single_sample_counterexample :
    snr05 [90, 100, 110, 7] [1, 1, 1, 0] (some [0, 0, 0, 1]) = .nonFinite := by
  norm_num [snr05, region]

/-- C7 (amended): where a corrected sample standard deviation is required
over fewer than 2 samples, `snr` of `05_snr_dietrich2007.py` raises
nothing and silently returns a non-finite float: any explicitly passed
background mask selecting fewer than 2 samples yields NaN, and in the
no-background-mask path a binary foreground mask selecting exactly one
sample yields the NaN `0/0`. -/
theorem snr05_insufficient_samples_nonfinite (img smask nm : List ℚ) :
    ((region img nm).length < 2 → snr05 img smask (some nm) = .nonFinite)
  ∧ (img.length = smask.length → (∀ x ∈ smask, x = 0 ∨ x = 1) →
      (region img smask).length = 1 → snr05 img smask none = .nonFinite) := by
  constructor
  · intro hlt
    simp only [snr05]
    split_ifs <;> simp_all
  · intro hlen hbin hone
    have hsum := sum_eq_region_length_of_binary img smask hlen hbin
    obtain ⟨x, hx⟩ := List.length_eq_one.mp hone
    have hd : smask.sum - 1 = 0 := by
      rw [hsum, hone]
      norm_num
    have hs : ssdQ (region img smask) (medianQ (region img smask)) = 0 := by
      rw [hx]
      simp [medianQ, sortAsc, insertAsc, ssdQ]
    simp only [snr05]
    split_ifs <;> simp_all

/-- Witness for C7 (amended): a one-sample background selection and a
one-sample binary foreground selection. -/
theorem snr05_insufficient_samples_nonfinite_witness :
    snr05 [8, 9, 10, 7] [1, 1, 0, 0] (some [0, 0, 1, 0]) = .nonFinite
  ∧ snr05 [8, 9, 10, 7] [1, 0, 0, 0] none = .nonFinite := by
  refine ⟨(snr05_insufficient_samples_nonfinite [8, 9, 10, 7] [1, 1, 0, 0] [0, 0, 1, 0]).1 ?_,
    (snr05_insufficient_samples_nonfinite [8, 9, 10, 7] [1, 0, 0, 0] [0, 0, 1, 0]).2 ?_ ?_ ?_⟩
  · norm_num [region]
  · norm_num
  · decide
  · norm_num [region]

/-- Counterexample to C8: a mask selecting zero samples does not raise
`EmptyRegionError`; `np.median` of the empty selection is NaN and `snr`
of `05_snr_dietrich2007.py` silently returns it. -/
theorem snr05_empty_region_counterexample :
    snr05 [1, 2, 3] [0, 0, 0] none = .nonFinite := by
  norm_num [snr05, region]

/-- C8 (amended): when a required mask selects zero samples — the
foreground mask for either path, or an explicitly passed background
mask — `snr` of `05_snr_dietrich2007.py` raises nothing and silently
returns a non-finite float (the NaN statistic of an empty selection). -/
theorem snr05_empty_region_nonfinite (img smask nm : List ℚ) :
    (region img smask = [] → ∀ nmask, snr05 img smask nmask = .nonFinite)
  ∧ (region img nm = [] → snr05 img smask (some nm) = .nonFinite) := by
  constructor
  · intro h nmask
    simp [snr05, h]
  · intro h
    simp only [snr05]
    split_ifs <;> simp_all

/-- Witness for C8 (amended): an all-zero foreground mask and an all-zero
background mask. -/
theorem snr05_empty_region_nonfinite_witness :
    snr05 [4, 5] [0, 0] none = .nonFinite
  ∧ snr05 [4, 5] [1, 1] (some [0, 0]) = .nonFinite := by
  refine ⟨(snr05_empty_region_nonfinite [4, 5] [0, 0] [0, 0]).1 ?_ none,
    (snr05_empty_region_nonfinite [4, 5] [1, 1] [0, 0]).2 ?_⟩
  · norm_num [region]
  · norm_num [region]

/-- Scaling the image scales the selected region values; the selection
pattern depends only on the mask. -/
theorem region_map_mul (k : ℚ) : ∀ (img mask : List ℚ),
    region (img.map (fun y => k * y)) mask = (region img mask).map (fun y => k * y)
  | _, [] => by simp [region]
  | [], _ :: _ => by simp [region]
  | x :: xs, m :: ms => by
    by_cases hm : 0 < m
    · simp [region, hm, region_map_mul k xs ms]
    · simp [region, hm, region_map_mul k xs ms]

/-- Multiplying by a positive constant commutes with ordered insertion. -/
theorem insertAsc_map_mul (k : ℚ) (hk : 0 < k) (x : ℚ) : ∀ l : List ℚ,
    insertAsc (k * x) (l.map (fun y => k * y)) = (insertAsc x l).map (fun y => k * y)
  | [] => rfl
  | y :: ys => by
    have hiff : k * x ≤ k * y ↔ x ≤ y := mul_le_mul_left hk
    by_cases h : x ≤ y
    · simp [insertAsc, h, hiff.mpr h]
    · have h' : ¬ k * x ≤ k * y := fun hh => h (hiff.mp hh)
      simp [insertAsc, h, h', insertAsc_map_mul k hk x ys]

/-- Multiplying by a positive constant commutes with sorting. -/
theorem sortAsc_map_mul (k : ℚ) (hk : 0 < k) : ∀ l : List ℚ,
    sortAsc (l.map (fun y => k * y)) = (sortAsc l).map (fun y => k * y)
  | [] => rfl
  | x :: xs => by
    simp only [List.map_cons, sortAsc, sortAsc_map_mul k hk xs,
      insertAsc_map_mul k hk x (sortAsc xs)]

/-- Positional access with default 0 commutes with scaling. -/
theorem getD_map_mul (k : ℚ) : ∀ (l : List ℚ) (i : ℕ),
    (l.map (fun y => k * y)).getD i 0 = k * l.getD i 0
  | [], _ => by simp
  | _ :: _, 0 => rfl
  | _ :: xs, i + 1 => getD_map_mul k xs i

/-- The median is positively homogeneous. -/
theorem medianQ_map_mul (k : ℚ) (hk : 0 < k) (xs : List ℚ) :
    medianQ (xs.map (fun y => k * y)) = k * medianQ xs := by
  unfold medianQ
  rw [sortAsc_map_mul k hk, List.length_map]
  by_cases h : xs.length % 2 = 1
  · rw [if_pos h, if_pos h, getD_map_mul]
  · rw [if_neg h, if_neg h, getD_map_mul, getD_map_mul]
    ring

/-- List sums are homogeneous. -/
theorem sum_map_mul (k : ℚ) : ∀ l : List ℚ, (l.map (fun y => k * y)).sum = k * l.sum
  | [] => by simp
  | x :: xs => by
    simp [sum_map_mul k xs]
    ring

/-- The sum of squared deviations is quadratically homogeneous. -/
theorem ssdQ_map_mul (k c : ℚ) (l : List ℚ) :
    ssdQ (l.map (fun y => k * y)) (k * c) = k ^ 2 * ssdQ l c := by
  unfold ssdQ
  rw [List.map_map]
  have hfun : ((fun x => (x - k * c) ^ 2) ∘ fun y => k * y) =
      fun x => k ^ 2 * (x - c) ^ 2 := by
    funext x
    simp only [Function.comp_apply]
    ring
  rw [hfun]
  induction l with
  | nil => simp
  | cons x xs ih =>
    simp [ih]
    ring

/-- The mean is homogeneous. -/
theorem meanQ_map_mul (k : ℚ) (l : List ℚ) :
    meanQ (l.map (fun y => k * y)) = k * meanQ l := by
  unfold meanQ
  rw [sum_map_mul, List.length_map, mul_div_assoc]

/-- Scaling numerator and the variance under the square root by a positive
constant leaves the quotient unchanged. -/
theorem scale_val_eq (k m s d : ℚ) (hk : 0 < k) :
    ((k * m : ℚ) : ℝ) / Real.sqrt (((k ^ 2 * s : ℚ) : ℝ) / ((d : ℚ) : ℝ)) =
      ((m : ℚ) : ℝ) / Real.sqrt (((s : ℚ) : ℝ) / ((d : ℚ) : ℝ)) := by
  have hkR : (0 : ℝ) < (k : ℝ) := by exact_mod_cast hk
  push_cast
  rw [show ((k : ℝ) ^ 2 * s) / d = (k : ℝ) ^ 2 * ((s : ℝ) / d) by ring]
  rw [Real.sqrt_mul (sq_nonneg _), Real.sqrt_sq hkR.le]
  rw [mul_div_mul_left _ _ (ne_of_gt hkR)]

/-- Variant of `scale_val_eq` with a fixed prefactor in the denominator. -/
theorem scale_val_eq_factor (C : ℝ) (k m v : ℚ) (hk : 0 < k) :
    ((k * m : ℚ) : ℝ) / (C * Real.sqrt ((k ^ 2 * v : ℚ) : ℝ)) =
      ((m : ℚ) : ℝ) / (C * Real.sqrt ((v : ℚ) : ℝ)) := by
  have hkR : (0 : ℝ) < (k : ℝ) := by exact_mod_cast hk
  push_cast
  rw [show ((k : ℝ) ^ 2 * v) = (k : ℝ) ^ 2 * (v : ℝ) by ring]
  rw [Real.sqrt_mul (sq_nonneg _), Real.sqrt_sq hkR.le]
  rw [show C * ((k : ℝ) * Real.sqrt v) = (k : ℝ) * (C * Real.sqrt v) by ring]
  rw [mul_div_mul_left _ _ (ne_of_gt hkR)]

/-- C4: SNR is invariant under uniform positive scaling of the image
intensities, exactly, in both `05_snr_dietrich2007.py` (either path) and
`03_snr_median.py`. -/
theorem snr_scale_invariant (k : ℚ) (img smask : List ℚ)
    (nmask : Option (List ℚ)) (hk : 0 < k) :
    snr05 (img.map (fun y => k * y)) smask nmask = snr05 img smask nmask
  ∧ snr03 (img.map (fun y => k * y)) smask nmask = snr03 img smask nmask := by
  have hk2 : (k ^ 2 : ℚ) ≠ 0 := pow_ne_zero 2 (ne_of_gt hk)
  constructor
  · cases nmask with
    | none =>
      simp only [snr05]
      rw [region_map_mul]
      by_cases h1 : region img smask = []
      · simp [h1]
      · have h1' : (region img smask).map (fun y => k * y) ≠ [] := by
          simpa using h1
        rw [if_neg h1', if_neg h1]
        rw [medianQ_map_mul k hk, ssdQ_map_mul]
        have hseq : (k ^ 2 * ssdQ (region img smask) (medianQ (region img smask)) = 0) ↔
            (ssdQ (region img smask) (medianQ (region img smask)) = 0) := by
          simp [hk2]
        by_cases hd0 : smask.sum - 1 = 0
        · simp only [if_pos hd0, hseq]
        · by_cases hdlt : smask.sum - 1 < 0
          · simp only [if_neg hd0, if_pos hdlt]
          · by_cases hs0 : ssdQ (region img smask) (medianQ (region img smask)) = 0
            · simp only [if_neg hd0, if_neg hdlt, if_pos (hseq.mpr hs0), if_pos hs0]
            · rw [if_neg hd0, if_neg hd0, if_neg hdlt, if_neg hdlt,
                if_neg (fun h => hs0 (hseq.mp h)), if_neg hs0]
              exact congrArg SnrOut.finite
                (scale_val_eq k (medianQ (region img smask))
                  (ssdQ (region img smask) (medianQ (region img smask)))
                  (smask.sum - 1) hk)
    | some nm =>
      simp only [snr05]
      rw [region_map_mul, region_map_mul]
      by_cases h1 : region img smask = []
      · simp [h1]
      · have h1' : (region img smask).map (fun y => k * y) ≠ [] := by
          simpa using h1
        rw [if_neg h1', if_neg h1]
        rw [medianQ_map_mul k hk, meanQ_map_mul, ssdQ_map_mul, List.length_map]
        by_cases hlen : (region img nm).length < 2
        · simp only [if_pos hlen]
        · rw [if_neg hlen, if_neg hlen]
          rw [mul_div_assoc]
          have hveq : (k ^ 2 * (ssdQ (region img nm) (meanQ (region img nm)) /
              (((region img nm).length : ℚ) - 1)) = 0) ↔
              (ssdQ (region img nm) (meanQ (region img nm)) /
              (((region img nm).length : ℚ) - 1) = 0) := by
            simp [hk2]
          by_cases hv0 : ssdQ (region img nm) (meanQ (region img nm)) /
              (((region img nm).length : ℚ) - 1) = 0
          · simp only [if_pos (hveq.mpr hv0), if_pos hv0]
          · rw [if_neg (fun h => hv0 (hveq.mp h)), if_neg hv0]
            exact congrArg SnrOut.finite
              (scale_val_eq_factor (Real.sqrt (2 / (4 - Real.pi))) k
                (medianQ (region img smask))
                (ssdQ (region img nm) (meanQ (region img nm)) /
                  (((region img nm).length : ℚ) - 1)) hk)
  · simp only [snr03]
    rw [region_map_mul, region_map_mul]
    by_cases h1 : region img smask = []
    · simp [h1]
    · have h1' : (region img smask).map (fun y => k * y) ≠ [] := by
        simpa using h1
      rw [if_neg h1', if_neg h1]
      by_cases h2 : region img (nmask.getD smask) = []
      · simp [h2]
      · have h2' : (region img (nmask.getD smask)).map (fun y => k * y) ≠ [] := by
          simpa using h2
        rw [if_neg h2', if_neg h2]
        rw [medianQ_map_mul k hk, meanQ_map_mul, ssdQ_map_mul, List.length_map]
        rw [mul_div_assoc]
        have hveq : (k ^ 2 * (ssdQ (region img (nmask.getD smask))
            (meanQ (region img (nmask.getD smask))) /
            ((region img (nmask.getD smask)).length : ℚ)) = 0) ↔
            (ssdQ (region img (nmask.getD smask))
            (meanQ (region img (nmask.getD smask))) /
            ((region img (nmask.getD smask)).length : ℚ) = 0) := by
          simp [hk2]
        by_cases hv0 : ssdQ (region img (nmask.getD smask))
            (meanQ (region img (nmask.getD smask))) /
            ((region img (nmask.getD smask)).length : ℚ) = 0
        · simp only [if_pos (hveq.mpr hv0), if_pos hv0]
        · rw [if_neg (fun h => hv0 (hveq.mp h)), if_neg hv0]
          have := scale_val_eq_factor 1 k
            (medianQ (region img smask))
            (ssdQ (region img (nmask.getD smask))
              (meanQ (region img (nmask.getD smask))) /
              ((region img (nmask.getD smask)).length : ℚ)) hk
          rw [one_mul, one_mul] at this
          exact congrArg SnrOut.finite this

/-- Witness for C4: doubling the intensities of the Scenario image leaves
both estimators unchanged. -/
theorem snr_scale_invariant_witness :
    snr05 ([90, 100, 110].map (fun y => (2 : ℚ) * y)) [1, 1, 1] none =
      snr05 [90, 100, 110] [1, 1, 1] none
  ∧ snr03 ([90, 100, 110].map (fun y => (2 : ℚ) * y)) [1, 1, 1] none =
      snr03 [90, 100, 110] [1, 1, 1] none :=
  snr_scale_invariant 2 [90, 100, 110] [1, 1, 1] none (by norm_num)

/-- C5: in every variant of the function — both paths of
`05_snr_dietrich2007.py`, the historical `03_snr_median.py`, and
`99_snr_original.py` — the SNR numerator is the median (as computed by
`medianQ`: sort and take the middle, not the arithmetic mean) of the image
values selected by the foreground mask; the final conjunct records that
the median genuinely differs from the mean on a skewed region. -/
theorem snr_numerator_is_median (img smask nm : List ℚ) (erode : Bool) (fglabel : ℚ) :
    (region img smask ≠ [] → 2 ≤ (region img nm).length →
      ssdQ (region img nm) (meanQ (region img nm)) ≠ 0 →
      snr05 img smask (some nm) = .finite ((medianQ (region img smask) : ℝ) /
        (rayleighFactor * sampleStd (region img nm) 1)))
  ∧ (region img smask ≠ [] → 0 < smask.sum - 1 →
      ssdQ (region img smask) (medianQ (region img smask)) ≠ 0 →
      snr05 img smask none = .finite ((medianQ (region img smask) : ℝ) /
        Real.sqrt ((ssdQ (region img smask) (medianQ (region img smask)) : ℝ) /
          ((smask.sum - 1 : ℚ) : ℝ))))
  ∧ (region img smask ≠ [] → region img nm ≠ [] →
      ssdQ (region img nm) (meanQ (region img nm)) ≠ 0 →
      snr03 img smask (some nm) = .finite ((medianQ (region img smask) : ℝ) /
        sampleStd (region img nm) 0))
  ∧ (region img smask ≠ [] → 0 < smask.sum - 1 →
      ssdQ (region img smask) (medianQ (region img smask)) ≠ 0 →
      snr99 prepareMaskId img smask none erode fglabel =
        .finite ((medianQ (region img smask) : ℝ) /
          Real.sqrt ((ssdQ (region img smask) (medianQ (region img smask)) : ℝ) /
            ((smask.sum - 1 : ℚ) : ℝ))))
  ∧ medianQ [10, 20, 90] ≠ meanQ [10, 20, 90] := by
  refine ⟨fun h1 h2 h3 => snr05_rayleigh_spec img smask nm h1 h2 h3,
    fun h1 h2 h3 => snr05_caseA_eq img smask h1 h2 h3, ?_,
    fun h1 h2 h3 => snr99_caseA_eq img smask erode fglabel h1 h2 h3, ?_⟩
  · intro h1 h2 h3
    have h := snr03_eq img smask (some nm) h1 (by simpa using h2) (by simpa using h3)
    simp only [Option.getD_some] at h
    rw [h]
    unfold sampleStd
    simp only [SnrOut.finite.injEq]
    push_cast
    norm_num
  · norm_num [medianQ, meanQ, sortAsc, insertAsc]

/-- Witness for C5: all variants evaluated at the Scenario inputs, plus
the concrete skewed region on which median and mean differ. -/
theorem snr_numerator_is_median_witness :
    (snr05 [90, 100, 110, 0, 5, 10] [1, 1, 1, 0, 0, 0] (some [0, 0, 0, 1, 1, 1]) =
      .finite ((medianQ (region [90, 100, 110, 0, 5, 10] [1, 1, 1, 0, 0, 0]) : ℝ) /
        (rayleighFactor * sampleStd (region [90, 100, 110, 0, 5, 10] [0, 0, 0, 1, 1, 1]) 1)))
  ∧ (snr05 [90, 100, 110, 0, 5, 10] [1, 1, 1, 0, 0, 0] none =
      .finite ((medianQ (region [90, 100, 110, 0, 5, 10] [1, 1, 1, 0, 0, 0]) : ℝ) /
        Real.sqrt ((ssdQ (region [90, 100, 110, 0, 5, 10] [1, 1, 1, 0, 0, 0])
            (medianQ (region [90, 100, 110, 0, 5, 10] [1, 1, 1, 0, 0, 0])) : ℝ) /
          ((List.sum [(1 : ℚ), 1, 1, 0, 0, 0] - 1 : ℚ) : ℝ))))
  ∧ (snr03 [90, 100, 110, 0, 5, 10] [1, 1, 1, 0, 0, 0] (some [0, 0, 0, 1, 1, 1]) =
      .finite ((medianQ (region [90, 100, 110, 0, 5, 10] [1, 1, 1, 0, 0, 0]) : ℝ) /
        sampleStd (region [90, 100, 110, 0, 5, 10] [0, 0, 0, 1, 1, 1]) 0))
  ∧ (snr99 prepareMaskId [90, 100, 110, 0, 5, 10] [1, 1, 1, 0, 0, 0] none true 1 =
      .finite ((medianQ (region [90, 100, 110, 0, 5, 10] [1, 1, 1, 0, 0, 0]) : ℝ) /
        Real.sqrt ((ssdQ (region [90, 100, 110, 0, 5, 10] [1, 1, 1, 0, 0, 0])
            (medianQ (region [90, 100, 110, 0, 5, 10] [1, 1, 1, 0, 0, 0])) : ℝ) /
          ((List.sum [(1 : ℚ), 1, 1, 0, 0, 0] - 1 : ℚ) : ℝ))))
  ∧ medianQ [10, 20, 90] ≠ meanQ [10, 20, 90] := by
  have h := snr_numerator_is_median [90, 100, 110, 0, 5, 10] [1, 1, 1, 0, 0, 0]
    [0, 0, 0, 1, 1, 1] true 1
  exact ⟨h.1 (by simp [region]) (by norm_num [region]) (by norm_num [region, ssdQ, meanQ]),
    h.2.1 (by simp [region]) (by norm_num)
      (by norm_num [region, ssdQ, medianQ, sortAsc, insertAsc]),
    h.2.2.1 (by simp [region]) (by simp [region]) (by norm_num [region, ssdQ, meanQ]),
    h.2.2.2.1 (by simp [region]) (by norm_num)
      (by norm_num [region, ssdQ, medianQ, sortAsc, insertAsc]),
    h.2.2.2.2⟩

/-- C3: passing the foreground mask itself as the explicit background mask
selects the Rayleigh-corrected estimator, not the median-centered Bessel
formula used when the mask is omitted: `snr05 img m (some m)` equals the
Rayleigh-corrected formula, `snr05 img m none` equals the median-centered
Bessel formula, and on the concrete input `[90,100,110]` with mask
`[1,1,1]` the two calls disagree. -/
theorem snr05_explicit_mask_selects_rayleigh (img m : List ℚ)
    (h2 : 2 ≤ (region img m).length)
    (h3 : ssdQ (region img m) (meanQ (region img m)) ≠ 0)
    (h4 : 0 < m.sum - 1)
    (h5 : ssdQ (region img m) (medianQ (region img m)) ≠ 0) :
    (snr05 img m (some m) = .finite ((medianQ (region img m) : ℝ) /
        (rayleighFactor * sampleStd (region img m) 1)))
  ∧ (snr05 img m none = .finite ((medianQ (region img m) : ℝ) /
        Real.sqrt ((ssdQ (region img m) (medianQ (region img m)) : ℝ) /
          ((m.sum - 1 : ℚ) : ℝ))))
  ∧ snr05 [90, 100, 110] [1, 1, 1] (some [1, 1, 1]) ≠
      snr05 [90, 100, 110] [1, 1, 1] none := by
  have h1 : region img m ≠ [] := by
    intro h
    rw [h] at h2
    simp at h2
  refine ⟨snr05_rayleigh_spec img m m h1 h2 h3, snr05_caseA_eq img m h1 h4 h5, ?_⟩
  have hB := snr05_rayleigh_spec [90, 100, 110] [1, 1, 1] [1, 1, 1]
    (by simp [region]) (by norm_num [region]) (by norm_num [region, ssdQ, meanQ])
  have hA := snr05_caseA_eq [90, 100, 110] [1, 1, 1]
    (by simp [region]) (by norm_num) (by norm_num [region, ssdQ, medianQ, sortAsc, insertAsc])
  rw [hB, hA]
  have hm : medianQ (region [90, 100, 110] [1, 1, 1]) = 100 := by
    norm_num [region, medianQ, sortAsc, insertAsc]
  have hstd : sampleStd (region [90, 100, 110] [1, 1, 1]) 1 = 10 := by
    have hr : region [90, 100, 110] [(1 : ℚ), 1, 1] = [90, 100, 110] := by
      norm_num [region]
    rw [sampleStd, hr]
    norm_num [ssdQ, meanQ]
    rw [show (100 : ℝ) = 10 ^ 2 by norm_num, Real.sqrt_sq] ; norm_num
  have hssd : ssdQ (region [90, 100, 110] [1, 1, 1]) 100 = 200 := by
    norm_num [region, ssdQ]
  have hsum : List.sum [(1 : ℚ), 1, 1] - 1 = 2 := by norm_num
  rw [hm, hstd, hssd, hsum]
  have hq : ((200 : ℚ) : ℝ) / ((2 : ℚ) : ℝ) = 10 ^ 2 := by
    push_cast
    norm_num
  rw [hq, Real.sqrt_sq (by norm_num : (0 : ℝ) ≤ 10)]
  simp only [ne_eq, SnrOut.finite.injEq]
  push_cast
  intro heq
  by_cases hrf : rayleighFactor * 10 = 0
  · rw [hrf, div_zero] at heq
    norm_num at heq
  · rw [div_eq_iff hrf] at heq
    have hrf1 : rayleighFactor = 1 := by linarith
    have hpos : (0 : ℝ) < 4 - Real.pi := by
      have := Real.pi_lt_four
      linarith
    have harg : (0 : ℝ) ≤ 2 / (4 - Real.pi) := le_of_lt (by positivity)
    have hsq := Real.sq_sqrt harg
    rw [show Real.sqrt (2 / (4 - Real.pi)) = rayleighFactor from rfl, hrf1] at hsq
    have h42 : 4 - Real.pi = 2 := by
      field_simp at hsq
      linarith
    have := Real.pi_gt_three
    linarith

/-- Witness for C3: the concrete disagreement plus both formula instances
at the same input. -/
theorem snr05_explicit_mask_selects_rayleigh_witness :
    (snr05 [90, 100, 110] [1, 1, 1] (some [1, 1, 1]) =
      .finite ((medianQ (region [90, 100, 110] [1, 1, 1]) : ℝ) /
        (rayleighFactor * sampleStd (region [90, 100, 110] [1, 1, 1]) 1)))
  ∧ snr05 [90, 100, 110] [1, 1, 1] (some [1, 1, 1]) ≠
      snr05 [90, 100, 110] [1, 1, 1] none := by
  have h := snr05_explicit_mask_selects_rayleigh [90, 100, 110] [1, 1, 1]
    (by norm_num [region]) (by norm_num [region, ssdQ, meanQ]) (by norm_num)
    (by norm_num [region, ssdQ, medianQ, sortAsc, insertAsc])
  exact ⟨h.1, h.2.2⟩
